import Mathlib

/-!
# prefwatch: flattening, rendering and the change handler of `main.go`

A shallow embedding of `src/main.go`.

* Go strings are Lean strings (sequences of code points).  Go compares strings
  bytewise; on UTF-8 text that is the lexicographic order of the code point
  sequences, which is the order used here (`strLt`).
* `map[string]interface{}` is the list of its (key, value) pairs in the order in
  which `range` visits them.  Go leaves that order unspecified, so every list
  order is a possible run; the keys of one map are pairwise distinct.
* `p *[]plistItem` is passed as state: every function takes the slice and
  returns the slice after its appends.
* The pieces of the Go standard library the program calls (`fmt`, `strconv`)
  are modelled by their documented behaviour; floating point and time
  formatting, the Unicode tables of `strconv` and the sorting algorithm behind
  `sort.Slice` are parameters (`GoLib`).  `sort.Slice` is not stable, so of the
  sort only its contract is used: the result is a reordering of the slice in
  which no element is `less` than one before it.
-/

namespace Prefwatch

/-! ## Entries and their order -/

/-- The struct `plistItem`. -/
structure plistItem where
  key : String
  vtype : String
  value : String
  deriving DecidableEq

/-- Go's `<` on strings. -/
def strLt (s t : String) : Bool := decide (s.data < t.data)

/-- The comparator handed to `sort.Slice` in `plistString`, on the elements at
`i` and `j`: `q[j].key < q[i].key`. -/
def less (qi qj : plistItem) : Bool := strLt qj.key qi.key

/-- An insertion sort under `less`: one function that meets the contract of
`sort.Slice`.  It is not the sort of the program (Go runs a pattern-defeating
quicksort, which may order entries of equal key differently); it computes the
worked examples, whose keys are pairwise distinct, where every sort that meets
the contract returns the same list (`sortSlice_eq_insertionSortLess`). -/
def insertionSortLess (q : List plistItem) : List plistItem :=
  q.insertionSort (fun a b => less b a = false)

/-! ## Go standard library -/

/-- A `time.Time` value: the three fields of the Go struct (`loc` is the name of
the location, `none` for the nil pointer that stands for UTC). -/
structure Time where
  wall : Nat
  ext : Int
  loc : Option String

/-- The parts of the Go standard library that are taken as parameters:
`strconv`'s printability tables for code points above U+00FF, the `%#v` text of
a `float32`, a `float64` (given by their IEEE-754 bits) and a `time.Time`, and
the call `sort.Slice(q, less)` of `plistString`.  Of the sort only what the
library promises is assumed: the slice afterwards is a reordering of the slice
before (`sortPerm`) in which no element is `less` than one before it
(`sortSorted`); which of several such reorderings it is, when keys repeat, is
left open. -/
structure GoLib where
  isPrintWide : Char → Bool
  float32 : Nat → String
  float64 : Nat → String
  time : Time → String
  sortSlice : List plistItem → List plistItem
  sortPerm : ∀ q, (sortSlice q).Perm q
  sortSorted : ∀ q, (sortSlice q).Pairwise (fun a b => less b a = false)

/-- The digits of `n` in base `base`, most significant first, as `fmt`'s
`fmtInteger` produces them (`lowerhex` digits); `fuel` bounds the number of
digits. -/
def digitsFuel (base : Nat) : Nat → Nat → List Char
  | 0, _ => []
  | fuel + 1, n =>
    if n < base then [Nat.digitChar n]
    else digitsFuel base fuel (n / base) ++ [Nat.digitChar (n % base)]

/-- The text of the unsigned number `n` in base `base`. -/
def fmtUnsigned (base n : Nat) : String := ⟨digitsFuel base (n + 1) n⟩

/-- The verb `%d` on a slice index (a non-negative `int`). -/
def fmtD (k : Nat) : String := fmtUnsigned 10 k

/-- `fmt`'s `fmt0x64(v, true)`: `0x` and the lower-case hexadecimal digits. -/
def fmt0x64 (v : Nat) : String := "0x" ++ fmtUnsigned 16 (v % 2 ^ 64)

/-- The verb `%#v` on a `uint64`: Go syntax prints unsigned integers through
`fmt0x64`. -/
def goSyntaxUint64 (v : Nat) : String := fmt0x64 v

/-- The verb `%#v` on an `int64`: `fmtInteger(u, 10, signed, ...)` on the two's
complement bits `u` of `v`; a value with the sign bit set is negated (modulo
2^64) and gets a leading minus sign. -/
def goSyntaxInt64 (v : Int) : String :=
  let u := (v % 2 ^ 64).toNat
  if 2 ^ 63 ≤ u then "-" ++ fmtUnsigned 10 ((2 ^ 64 - u) % 2 ^ 64)
  else fmtUnsigned 10 u

/-- The verb `%#v` on a `bool`. -/
def goSyntaxBool (v : Bool) : String := if v then "true" else "false"

/-- The elements of a byte slice as `fmtBytes` writes them under `%#v`: each
byte through `fmt0x64`, separated by a comma and a space. -/
def bytesElems : List Nat → String
  | [] => ""
  | [c] => fmt0x64 (c % 256)
  | c :: rest => fmt0x64 (c % 256) ++ ", " ++ bytesElems rest

/-- The verb `%#v` on a `[]uint8`: `[]byte(nil)` for the nil slice (`none`),
otherwise `[]byte` and the elements in braces. -/
def goSyntaxBytes : Option (List Nat) → String
  | none => "[]byte(nil)"
  | some v => "[]byte\x7b" ++ bytesElems v ++ "\x7d"

/-- Printability, `strconv.IsPrint`: the Latin-1 fast path of the function, and
the tables for everything above it. -/
def IsPrint (lib : GoLib) (r : Char) : Bool :=
  if r.toNat ≤ 0xFF then
    if 0x20 ≤ r.toNat ∧ r.toNat ≤ 0x7E then true
    else if 0xA1 ≤ r.toNat ∧ r.toNat ≤ 0xFF then r.toNat != 0xAD
    else false
  else lib.isPrintWide r

/-- One digit of `lowerhex`: the four bits of `n` at bit offset `s`. -/
def hexAt (n s : Nat) : Char := Nat.digitChar (n / 2 ^ s % 16)

/-- What `strconv`'s `appendEscapedRune` appends for the rune `r` inside double
quotes (`quote = '"'`, neither ASCII-only nor graphic-only). -/
def appendEscapedRune (lib : GoLib) (r : Char) : List Char :=
  if r = '"' ∨ r = '\\' then ['\\', r]
  else if IsPrint lib r then [r]
  else if r = '\x07' then ['\\', 'a']
  else if r = '\x08' then ['\\', 'b']
  else if r = '\x0c' then ['\\', 'f']
  else if r = '\n' then ['\\', 'n']
  else if r = '\r' then ['\\', 'r']
  else if r = '\t' then ['\\', 't']
  else if r = '\x0b' then ['\\', 'v']
  else if r.toNat < 0x20 ∨ r.toNat = 0x7f then
    ['\\', 'x', hexAt r.toNat 4, hexAt r.toNat 0]
  else if r.toNat < 0x10000 then
    ['\\', 'u', hexAt r.toNat 12, hexAt r.toNat 8, hexAt r.toNat 4, hexAt r.toNat 0]
  else
    ['\\', 'U', hexAt r.toNat 28, hexAt r.toNat 24, hexAt r.toNat 20, hexAt r.toNat 16,
      hexAt r.toNat 12, hexAt r.toNat 8, hexAt r.toNat 4, hexAt r.toNat 0]

/-- The function `strconv.Quote`, which is what `%#v` prints for a string: the
escaped runes between two double quotes. -/
def Quote (lib : GoLib) (s : String) : String :=
  ⟨'"' :: (s.data.map (appendEscapedRune lib)).flatten ++ ['"']⟩

/-! ## The program -/

/-- A decoded node, `interface{}` as `howett.net/plist` hands it over: one
constructor per case of the type switch in `handleContent`, and `other` for a
value of any other dynamic type (named by its `%T`), such as `plist.UID`. -/
inductive Value where
  | string (v : String)
  | bool (v : Bool)
  | bytes (v : Option (List Nat))
  | uint64 (v : Nat)
  | int64 (v : Int)
  | float32 (bits : Nat)
  | float64 (bits : Nat)
  | time (v : Time)
  | map (items : List (String × Value))
  | slice (items : List Value)
  | other (typeName : String)

/-- The method `plistItem.String`: `Sprintf("%s : %s = %#v", key, vtype, value)`;
`value` is a string, so `%#v` prints it quoted. -/
def plistItem.String (lib : GoLib) (p : plistItem) : String :=
  p.key ++ " : " ++ p.vtype ++ " = " ++ Quote lib p.value

/-- The function `plistString`, its text: the lines of the slice as
`sort.Slice` leaves it. -/
def plistString (lib : GoLib) (q : List plistItem) : String :=
  String.join ((lib.sortSlice q).map (fun p => plistItem.String lib p ++ "\n"))

mutual
/-- The function `handleContent`: the slice `p` after the call. -/
def handleContent (lib : GoLib) : Value → String → List plistItem → List plistItem
  | .string v, key, p => p ++ [⟨key, "string", Quote lib v⟩]
  | .bool v, key, p => p ++ [⟨key, "bool", goSyntaxBool v⟩]
  | .bytes v, key, p => p ++ [⟨key, "[]uint8", goSyntaxBytes v⟩]
  | .uint64 v, key, p => p ++ [⟨key, "uint64", goSyntaxUint64 v⟩]
  | .int64 v, key, p => p ++ [⟨key, "int64", goSyntaxInt64 v⟩]
  | .float32 v, key, p => p ++ [⟨key, "float32", lib.float32 v⟩]
  | .float64 v, key, p => p ++ [⟨key, "float64", lib.float64 v⟩]
  | .time v, key, p => p ++ [⟨key, "time.Time", lib.time v⟩]
  | .map v, key, p => iterateMaps lib v key p
  | .slice v, key, p => iterateSlicesFrom lib v 0 key p
  | .other _, _, p => p
/-- The function `iterateMaps` (with `K = string`, the only instantiation):
`handleContent` on every pair, under the key `Sprintf("%s.'%s'", key, k)`. -/
def iterateMaps (lib : GoLib) : List (String × Value) → String → List plistItem → List plistItem
  | [], _, p => p
  | (k, i) :: rest, key, p =>
    iterateMaps lib rest key (handleContent lib i (key ++ ".'" ++ k ++ "'") p)
/-- The loop of `iterateSlices` from index `k` on: `handleContent` on every
element, under the key `Sprintf("%s.'%d'", key, k)`. -/
def iterateSlicesFrom (lib : GoLib) : List Value → Nat → String → List plistItem → List plistItem
  | [], _, _, p => p
  | i :: rest, k, key, p =>
    iterateSlicesFrom lib rest (k + 1) key (handleContent lib i (key ++ ".'" ++ fmtD k ++ "'") p)
end

/-- The function `iterateSlices`. -/
def iterateSlices (lib : GoLib) (items : List Value) (key : String) (p : List plistItem) :
    List plistItem :=
  iterateSlicesFrom lib items 0 key p

/-- What `readPlist` finds at a location: `os.Open` fails with an error text, or
the file opens and `Decode(&foo)` leaves `foo` (the nil map is `[]`) and
returns an error or not. -/
inductive File where
  | unopenable (err : String)
  | opened (foo : List (String × Value)) (decodeErr : Bool)

/-- The function `readPlist`, on a file system `fs`.  The result of `Decode` is
not looked at. -/
def readPlist (lib : GoLib) (fs : String → File) (file : String) : Except String (List plistItem) :=
  match fs file with
  | .unopenable err => .error ("error opening " ++ file ++ ": " ++ err)
  | .opened foo _ => .ok (iterateMaps lib foo "" [])

/-- One line handed to `log.Println`: an error, or the unified diff of
`aString` against `bString` under the label `name` (the diff library is not
part of the program; the line records what it was called on). -/
inductive LogLine where
  | err (msg : String)
  | unified (name aString bString : String)
  deriving DecidableEq

/-- The state of `main`: the map `fileData` and what has been logged. -/
structure State where
  fileData : String → Option (List plistItem)
  log : List LogLine

/-- The assignment `fileData[file] = q`. -/
def State.store (st : State) (file : String) (q : List plistItem) : State :=
  { st with fileData := fun f => if f = file then some q else st.fileData f }

/-- The first loop of `main` (lines 35 to 43), from the state `st`. -/
def mainBaseline (lib : GoLib) (fs : String → File) : List String → State → State
  | [], st => st
  | file :: rest, st =>
    match readPlist lib fs file with
    | .error e => mainBaseline lib fs rest { st with log := st.log ++ [.err e] }
    | .ok q => mainBaseline lib fs rest (st.store file q)

/-- The state before the first file is read. -/
def State.init : State := ⟨fun _ => none, []⟩

/-- A notification of `fsnotify`. -/
structure Event where
  Name : String
  Op : Nat

/-- The constant `fsnotify.Create`. -/
def Create : Nat := 1

/-- The body of the `watcher.Events` case of the loop in `main` (lines 60 to
80).  `plistString(oldQ)` sorts `oldQ` in place, and `oldQ` shares its array
with the slice held in `fileData`, so the stored slice is the sorted one
afterwards; nothing else writes to `fileData`. -/
def mainOnEvent (lib : GoLib) (fs : String → File) (st : State) (event : Event) : State :=
  if event.Op = Create then
    match st.fileData event.Name with
    | some oldQ =>
      match readPlist lib fs event.Name with
      | .error e => { st with log := st.log ++ [.err e] }
      | .ok newQ =>
        let aString := plistString lib oldQ
        let bString := plistString lib newQ
        { (st.store event.Name (lib.sortSlice oldQ)) with
          log := st.log ++ [.unified event.Name aString bString] }
    | none => st
  else st

/-- An instance of the parameters for worked examples: the examples hold ASCII
text and no floating point number or time, so the first four fields are not
reached, and their keys are pairwise distinct, so the sort is the one every
instance has there. -/
def GoLib.sample : GoLib where
  isPrintWide := fun _ => false
  float32 := fun _ => ""
  float64 := fun _ => ""
  time := fun _ => ""
  sortSlice := insertionSortLess
  sortPerm := fun q => List.perm_insertionSort _ q
  sortSorted := fun q => by
    have hle : ∀ a b : plistItem, less b a = false ↔ b.key ≤ a.key := by
      intro a b
      rw [← Bool.not_eq_true, less, strLt, decide_eq_true_iff, ← not_lt]
      exact not_congr String.lt_iff_toList_lt.symm
    have htotal : IsTotal plistItem (fun a b => less b a = false) :=
      ⟨fun a b => by simp only [hle]; exact le_total _ _⟩
    have htrans : IsTrans plistItem (fun a b => less b a = false) :=
      ⟨fun a b c => by simp only [hle]; exact fun h1 h2 => le_trans h2 h1⟩
    exact List.sorted_insertionSort _ q

/-! ## Vocabulary of the specification -/

/-- The value of a digit character: `0` to `9`, and `a` to `f` for ten to
fifteen. -/
def digitVal (c : Char) : Nat :=
  if 48 ≤ c.toNat ∧ c.toNat ≤ 57 then c.toNat - 48
  else if 97 ≤ c.toNat ∧ c.toNat ≤ 102 then c.toNat - 87
  else 0

/-- The number a digit string denotes in base `base`. -/
def numeral (base : Nat) (cs : List Char) : Nat :=
  cs.foldl (fun acc c => acc * base + digitVal c) 0

/-- The characters `cs` are the base-`base` digit string of `n`: at least one
digit, every character a digit below `base`, no leading zero (zero itself is
the single digit `0`), and the digits denote `n`. -/
def IsNumeral (base n : Nat) (cs : List Char) : Prop :=
  cs ≠ [] ∧ (∀ c ∈ cs, ∃ d, d < base ∧ c = Nat.digitChar d) ∧
    (n ≠ 0 → cs.head? ≠ some '0') ∧ numeral base cs = n ∧ (n = 0 → cs = ['0'])

/-- A printable ASCII character other than the double quote and the backslash. -/
def plainChar (c : Char) : Bool :=
  decide (0x20 ≤ c.toNat ∧ c.toNat ≤ 0x7E) && (c != '"' && c != '\\')

/-- One step from a node to a child: a mapping key or a sequence index. -/
inductive Segment where
  | key (k : String)
  | index (i : Nat)

/-- The piece of a path that one segment contributes: a dot, and between two
single quotes the mapping key itself or the decimal rendering of the index. -/
def Segment.piece : Segment → String
  | .key k => ".'" ++ k ++ "'"
  | .index i => ".'" ++ fmtD i ++ "'"

/-- The path of a leaf: the pieces of its segments, root to leaf, concatenated. -/
def pathOf (segs : List Segment) : String := String.join (segs.map Segment.piece)

mutual
/-- The scalar leaves of recognized kind below a node, in traversal order, each
given by its segments from the node down to the leaf. -/
def leafPaths : Value → List (List Segment)
  | .string _ => [[]]
  | .bool _ => [[]]
  | .bytes _ => [[]]
  | .uint64 _ => [[]]
  | .int64 _ => [[]]
  | .float32 _ => [[]]
  | .float64 _ => [[]]
  | .time _ => [[]]
  | .map items => leafPathsMap items
  | .slice items => leafPathsSlice items 0
  | .other _ => []
/-- The leaves below the values of a mapping. -/
def leafPathsMap : List (String × Value) → List (List Segment)
  | [] => []
  | (k, v) :: rest => (leafPaths v).map (fun segs => Segment.key k :: segs) ++ leafPathsMap rest
/-- The leaves below the elements of a sequence, the first of which has index
`i`. -/
def leafPathsSlice : List Value → Nat → List (List Segment)
  | [], _ => []
  | v :: rest, i =>
    (leafPaths v).map (fun segs => Segment.index i :: segs) ++ leafPathsSlice rest (i + 1)
end

mutual
/-- The number of scalar nodes of recognized kind in a document value: one for
each of the eight scalar kinds, none for a mapping, a sequence or a node of
unrecognized kind themselves. -/
def countLeaves : Value → Nat
  | .string _ => 1
  | .bool _ => 1
  | .bytes _ => 1
  | .uint64 _ => 1
  | .int64 _ => 1
  | .float32 _ => 1
  | .float64 _ => 1
  | .time _ => 1
  | .map items => countLeavesMap items
  | .slice items => countLeavesSlice items
  | .other _ => 0
/-- The recognized scalar nodes below the values of a mapping. -/
def countLeavesMap : List (String × Value) → Nat
  | [] => 0
  | (_, v) :: rest => countLeaves v + countLeavesMap rest
/-- The recognized scalar nodes below the elements of a sequence. -/
def countLeavesSlice : List Value → Nat
  | [] => 0
  | v :: rest => countLeaves v + countLeavesSlice rest
end

mutual
/-- All mapping keys that occur in a document value, at any depth. -/
def mapKeys : Value → List String
  | .map items => mapKeysMap items
  | .slice items => mapKeysSlice items
  | _ => []
/-- The keys of a mapping and those inside its values. -/
def mapKeysMap : List (String × Value) → List String
  | [] => []
  | (k, v) :: rest => k :: (mapKeys v ++ mapKeysMap rest)
/-- The mapping keys inside the elements of a sequence. -/
def mapKeysSlice : List Value → List String
  | [] => []
  | v :: rest => mapKeys v ++ mapKeysSlice rest
end

mutual
/-- Every mapping of the document value has pairwise distinct keys (as every Go
map has). -/
def distinctKeys : Value → Bool
  | .map items => decide (items.map Prod.fst).Nodup && distinctKeysMap items
  | .slice items => distinctKeysSlice items
  | _ => true
/-- The values of a mapping have distinct keys at every level. -/
def distinctKeysMap : List (String × Value) → Bool
  | [] => true
  | (_, v) :: rest => distinctKeys v && distinctKeysMap rest
/-- The elements of a sequence have distinct keys at every level. -/
def distinctKeysSlice : List Value → Bool
  | [] => true
  | v :: rest => distinctKeys v && distinctKeysSlice rest
end

/-- The single quote, the character that delimits a segment inside a path. -/
def quoteChar : Char := Char.ofNat 39

/-! ## Strings and sorting -/

theorem strLt_iff (s t : String) : strLt s t = true ↔ s < t := by
  unfold strLt
  rw [decide_eq_true_iff]
  exact String.lt_iff_toList_lt.symm

theorem less_eq_false_iff (a b : plistItem) : less b a = false ↔ b.key ≤ a.key := by
  rw [← Bool.not_eq_true, less, strLt_iff, not_lt]

theorem sortSlice_perm (lib : GoLib) (q : List plistItem) : (lib.sortSlice q).Perm q :=
  lib.sortPerm q

theorem sortSlice_sorted (lib : GoLib) (q : List plistItem) :
    (lib.sortSlice q).Pairwise (fun a b => less b a = false) :=
  lib.sortSorted q

theorem sortSlice_descending (lib : GoLib) (q : List plistItem) :
    (lib.sortSlice q).Pairwise (fun a b => b.key ≤ a.key) :=
  (sortSlice_sorted lib q).imp (fun h => (less_eq_false_iff _ _).1 h)

theorem eq_of_key_eq {q : List plistItem} (hq : (q.map plistItem.key).Nodup)
    {a b : plistItem} (ha : a ∈ q) (hb : b ∈ q) (h : a.key = b.key) : a = b :=
  List.inj_on_of_nodup_map hq ha hb h

/-- On pairwise distinct keys the outcome of `sort.Slice` is determined: every
reordering of `q` in which no element is `less` than one before it is the
slice that the sort returns. -/
theorem sortSlice_unique (lib : GoLib) (q l : List plistItem) (hp : l.Perm q)
    (hs : l.Pairwise (fun a b => less b a = false)) (hq : (q.map plistItem.key).Nodup) :
    l = lib.sortSlice q := by
  refine List.Perm.eq_of_sorted ?_ hs (sortSlice_sorted lib q)
    (hp.trans (sortSlice_perm lib q).symm)
  intro a b ha hb h1 h2
  rw [less_eq_false_iff] at h1 h2
  exact eq_of_key_eq hq (hp.subset ha) ((sortSlice_perm lib q).subset hb) (le_antisymm h2 h1)

/-- On pairwise distinct keys every sort returns what the insertion sort
returns. -/
theorem sortSlice_eq_insertionSortLess (lib : GoLib) (q : List plistItem)
    (hq : (q.map plistItem.key).Nodup) : lib.sortSlice q = insertionSortLess q :=
  (sortSlice_unique lib q (insertionSortLess q) (GoLib.sample.sortPerm q)
    (GoLib.sample.sortSorted q) hq).symm

theorem sortSlice_singleton (lib : GoLib) (a : plistItem) : lib.sortSlice [a] = [a] :=
  List.perm_singleton.1 (sortSlice_perm lib [a])

/-- Sorting again a slice that is sorted and has pairwise distinct keys changes
nothing. -/
theorem sortSlice_idem (lib : GoLib) (q : List plistItem) (hq : (q.map plistItem.key).Nodup) :
    lib.sortSlice (lib.sortSlice q) = lib.sortSlice q :=
  (sortSlice_unique lib (lib.sortSlice q) (lib.sortSlice q) (List.Perm.refl _)
    (sortSlice_sorted lib q) (((sortSlice_perm lib q).map _).nodup_iff.2 hq)).symm

theorem sortSlice_congr (lib : GoLib) {q1 q2 : List plistItem} (hp : q1.Perm q2)
    (hq : (q1.map plistItem.key).Nodup) : lib.sortSlice q1 = lib.sortSlice q2 :=
  sortSlice_unique lib q2 (lib.sortSlice q1) ((sortSlice_perm lib q1).trans hp)
    (sortSlice_sorted lib q1) ((hp.map _).nodup_iff.1 hq)

theorem plistString_eq_insertionSortLess (lib : GoLib) (q : List plistItem)
    (hq : (q.map plistItem.key).Nodup) :
    plistString lib q
      = String.join ((insertionSortLess q).map (fun p => plistItem.String lib p ++ "\n")) := by
  unfold plistString
  rw [sortSlice_eq_insertionSortLess lib q hq]

/-! ## The order of the rendered lines -/

/-- C2, as the code has it: the text of `plistString q` is the lines of the
entries of `q` in DESCENDING order of key (every entry's key is greater than or
equal to the key of every entry after it), not ascending. -/
theorem plistString_lines_descending (lib : GoLib) (q : List plistItem) :
    ∃ l : List plistItem, l.Perm q ∧ l.Pairwise (fun a b => b.key ≤ a.key) ∧
      plistString lib q = String.join (l.map (fun p => plistItem.String lib p ++ "\n")) :=
  ⟨lib.sortSlice q, sortSlice_perm lib q, sortSlice_descending lib q, rfl⟩

/-- C2 fails as stated: for the two entries with keys `.'a'` and `.'b'` the line
of `.'b'` comes first, and `.'b'` is not less than or equal to `.'a'`. -/
theorem plistString_not_ascending :
    (∀ lib : GoLib,
      plistString lib [⟨".'a'", "bool", "true"⟩, ⟨".'b'", "bool", "true"⟩]
        = ".'b' : bool = \"true\"\n.'a' : bool = \"true\"\n") ∧
    (∀ lib : GoLib,
      lib.sortSlice [⟨".'a'", "bool", "true"⟩, ⟨".'b'", "bool", "true"⟩]
        = [⟨".'b'", "bool", "true"⟩, ⟨".'a'", "bool", "true"⟩]) ∧
    ¬ ((".'b'" : String) ≤ ".'a'") := by
  refine ⟨fun lib => ?_, fun lib => ?_, ?_⟩
  · rw [plistString_eq_insertionSortLess lib _ (by decide)]
    rfl
  · rw [sortSlice_eq_insertionSortLess lib _ (by decide)]
    decide
  rw [not_le, ← strLt_iff]
  decide

/-- C3: two snapshots that are permutations of each other and whose keys are
pairwise distinct render to the same text. -/
theorem plistString_perm (lib : GoLib) (q1 q2 : List plistItem) (hp : q1.Perm q2)
    (hq : (q1.map plistItem.key).Nodup) : plistString lib q1 = plistString lib q2 := by
  unfold plistString
  rw [sortSlice_congr lib hp hq]

theorem plistString_perm_witness :
    plistString GoLib.sample [⟨".'x'", "string", "\"1\""⟩, ⟨".'y'", "bool", "true"⟩]
      = plistString GoLib.sample [⟨".'y'", "bool", "true"⟩, ⟨".'x'", "string", "\"1\""⟩] :=
  plistString_perm GoLib.sample _ _ (List.Perm.swap _ _ _) (by decide)

/-! ## Text -/

theorem foldl_append_data (l : List String) (acc : String) :
    (List.foldl (fun r s => r ++ s) acc l).data = acc.data ++ (l.map String.data).flatten := by
  induction l generalizing acc with
  | nil => simp
  | cons a l ih => simp [ih, String.data_append]

theorem join_data (l : List String) : (String.join l).data = (l.map String.data).flatten := by
  unfold String.join
  rw [foldl_append_data]
  rfl

/-! ## Digits -/

theorem digitChar_mem (d : Nat) (h : d < 16) : Nat.digitChar d ∈ "0123456789abcdef".data := by
  have key : ∀ d : Fin 16, Nat.digitChar d.1 ∈ "0123456789abcdef".data := by decide
  exact key ⟨d, h⟩

theorem digitVal_digitChar (d : Nat) (h : d < 16) : digitVal (Nat.digitChar d) = d := by
  have key : ∀ d : Fin 16, digitVal (Nat.digitChar d.1) = d.1 := by decide
  exact key ⟨d, h⟩

theorem digitChar_ne_zero (d : Nat) (h : d < 16) (h0 : d ≠ 0) : Nat.digitChar d ≠ '0' := by
  have key : ∀ d : Fin 16, d.1 ≠ 0 → Nat.digitChar d.1 ≠ '0' := by decide
  exact key ⟨d, h⟩ h0

theorem numeral_concat (base : Nat) (cs : List Char) (c : Char) :
    numeral base (cs ++ [c]) = numeral base cs * base + digitVal c := by
  simp [numeral, List.foldl_append]

theorem digitsFuel_ne_nil (base : Nat) : ∀ fuel n, n < fuel → digitsFuel base fuel n ≠ []
  | 0, n, h => by omega
  | fuel + 1, n, _ => by
    unfold digitsFuel
    split_ifs <;> simp

theorem digitsFuel_digit (base : Nat) (hb : 0 < base) :
    ∀ fuel n, ∀ c ∈ digitsFuel base fuel n, ∃ d, d < base ∧ c = Nat.digitChar d
  | 0, n, c, hc => by simp [digitsFuel] at hc
  | fuel + 1, n, c, hc => by
    unfold digitsFuel at hc
    split_ifs at hc with h
    · exact ⟨n, h, by simpa using hc⟩
    · rcases List.mem_append.1 hc with h1 | h1
      · exact digitsFuel_digit base hb fuel _ c h1
      · exact ⟨n % base, Nat.mod_lt _ hb, by simpa using h1⟩

theorem digitsFuel_numeral (base : Nat) (hb : 2 ≤ base) (hb16 : base ≤ 16) :
    ∀ fuel n, n < fuel → numeral base (digitsFuel base fuel n) = n
  | 0, n, h => by omega
  | fuel + 1, n, hn => by
    unfold digitsFuel
    split_ifs with h
    · simp [numeral, digitVal_digitChar n (by omega)]
    · have hdiv : n / base < fuel := by
        have := Nat.div_lt_self (n := n) (k := base) (by omega) (by omega)
        omega
      rw [numeral_concat, digitsFuel_numeral base hb hb16 fuel _ hdiv,
        digitVal_digitChar _ (by have := Nat.mod_lt n (show 0 < base by omega); omega)]
      exact Nat.div_add_mod' n base

theorem digitsFuel_head (base : Nat) (hb : 2 ≤ base) (hb16 : base ≤ 16) :
    ∀ fuel n, n < fuel → n ≠ 0 → (digitsFuel base fuel n).head? ≠ some '0'
  | 0, n, h, _ => by omega
  | fuel + 1, n, hn, h0 => by
    unfold digitsFuel
    split_ifs with h
    · simpa using digitChar_ne_zero n (by omega) h0
    · have hdiv : n / base < fuel := by
        have := Nat.div_lt_self (n := n) (k := base) (by omega) (by omega)
        omega
      have hpos : n / base ≠ 0 := by
        have := Nat.div_pos (show base ≤ n by omega) (show 0 < base by omega)
        omega
      have hne := digitsFuel_ne_nil base fuel (n / base) hdiv
      rw [List.head?_append_of_ne_nil _ hne]
      exact digitsFuel_head base hb hb16 fuel _ hdiv hpos

theorem fmtUnsigned_isNumeral (base : Nat) (hb : 2 ≤ base) (hb16 : base ≤ 16) (n : Nat) :
    IsNumeral base n (fmtUnsigned base n).data :=
  ⟨digitsFuel_ne_nil base _ n (by omega), digitsFuel_digit base (by omega) _ n,
    digitsFuel_head base hb hb16 _ n (by omega), digitsFuel_numeral base hb hb16 _ n (by omega),
    fun h0 => by
      subst h0
      show digitsFuel base 1 0 = ['0']
      unfold digitsFuel
      rw [if_pos (by omega)]
      rfl⟩

theorem fmtD_injective (a b : Nat) (h : fmtD a = fmtD b) : a = b := by
  have ha := (fmtUnsigned_isNumeral 10 (by omega) (by omega) a).2.2.2.1
  have hb := (fmtUnsigned_isNumeral 10 (by omega) (by omega) b).2.2.2.1
  unfold fmtD at h
  rw [h] at ha
  omega

theorem fmtD_hex (k : Nat) : ∀ c ∈ (fmtD k).data, c ∈ "0123456789abcdef".data := by
  intro c hc
  obtain ⟨d, hd, rfl⟩ := (fmtUnsigned_isNumeral 10 (by omega) (by omega) k).2.1 c hc
  exact digitChar_mem d (by omega)

/-! ## Quoting -/

theorem hexAt_mem (n s : Nat) : hexAt n s ∈ "0123456789abcdef".data :=
  digitChar_mem _ (Nat.mod_lt _ (by omega))

theorem hex_ne_newline (c : Char) (h : c ∈ "0123456789abcdef".data) : c ≠ '\n' := by
  rintro rfl
  revert h
  decide

theorem ite_ind {α : Type} (P : α → Prop) (c : Prop) [Decidable c] (a b : α)
    (ha : c → P a) (hb : ¬ c → P b) : P (if c then a else b) := by
  by_cases h : c
  · rw [if_pos h]; exact ha h
  · rw [if_neg h]; exact hb h

theorem escape_newline (c : Char) (hs : List Char) (hc : c ≠ '\n')
    (h : ∀ x ∈ hs, x ∈ "0123456789abcdef".data) : '\n' ∉ '\\' :: c :: hs := by
  intro hmem
  rcases List.mem_cons.1 hmem with h1 | h1
  · exact absurd h1 (by decide)
  rcases List.mem_cons.1 h1 with h2 | h2
  · exact hc h2.symm
  · exact hex_ne_newline _ (h _ h2) rfl

theorem appendEscapedRune_newline (lib : GoLib) (r : Char) :
    '\n' ∉ appendEscapedRune lib r := by
  have hp : IsPrint lib '\n' = false := rfl
  unfold appendEscapedRune
  refine ite_ind (fun l => '\n' ∉ l) _ _ _ (fun h1 => ?_) (fun _ => ?_)
  · rcases h1 with rfl | rfl <;> decide
  refine ite_ind (fun l => '\n' ∉ l) _ _ _ (fun h2 => ?_) (fun _ => ?_)
  · intro hmem
    rw [List.mem_singleton] at hmem
    rw [← hmem, hp] at h2
    exact Bool.noConfusion h2
  repeat' refine ite_ind (fun l => '\n' ∉ l) _ _ _ (fun _ => ?_) (fun _ => ?_)
  all_goals
    refine escape_newline _ _ (by decide) ?_
    intro x hx
    first
      | exact absurd hx (List.not_mem_nil _)
      | (simp only [List.mem_cons, List.mem_singleton, List.not_mem_nil, or_false] at hx
         rcases hx with rfl | rfl | rfl | rfl | rfl | rfl | rfl | rfl <;> exact hexAt_mem _ _)

theorem appendEscapedRune_length (lib : GoLib) (r : Char) :
    1 ≤ (appendEscapedRune lib r).length := by
  unfold appendEscapedRune
  repeat' refine ite_ind (fun l => 1 ≤ List.length l) _ _ _ (fun _ => ?_) (fun _ => ?_)
  all_goals exact Nat.succ_le_succ (Nat.zero_le _)

theorem appendEscapedRune_plain (lib : GoLib) (r : Char) (h : plainChar r = true) :
    appendEscapedRune lib r = [r] := by
  simp only [plainChar, Bool.and_eq_true, decide_eq_true_eq, bne_iff_ne, ne_eq] at h
  obtain ⟨⟨h1, h2⟩, h3, h4⟩ := h
  have hp : IsPrint lib r = true := by
    unfold IsPrint
    rw [if_pos (by omega), if_pos ⟨h1, h2⟩]
  unfold appendEscapedRune
  rw [if_neg (by simp [h3, h4]), if_pos hp]

theorem flatten_escaped_newline (lib : GoLib) (cs : List Char) :
    '\n' ∉ (cs.map (appendEscapedRune lib)).flatten := by
  intro h
  rw [List.mem_flatten] at h
  obtain ⟨l, hl, hmem⟩ := h
  obtain ⟨r, _, rfl⟩ := List.mem_map.1 hl
  exact appendEscapedRune_newline lib r hmem

theorem flatten_escaped_length (lib : GoLib) (cs : List Char) :
    cs.length ≤ ((cs.map (appendEscapedRune lib)).flatten).length := by
  induction cs with
  | nil => simp
  | cons c cs ih =>
    have := appendEscapedRune_length lib c
    simp only [List.map_cons, List.flatten_cons, List.length_append, List.length_cons]
    omega

theorem flatten_escaped_plain (lib : GoLib) (cs : List Char)
    (h : ∀ c ∈ cs, plainChar c = true) : (cs.map (appendEscapedRune lib)).flatten = cs := by
  induction cs with
  | nil => rfl
  | cons c cs ih =>
    simp only [List.map_cons, List.flatten_cons]
    rw [appendEscapedRune_plain lib c (h c (List.mem_cons_self _ _)),
      ih (fun d hd => h d (List.mem_cons_of_mem _ hd))]
    rfl

theorem Quote_newline (lib : GoLib) (s : String) : '\n' ∉ (Quote lib s).data := by
  unfold Quote
  intro h
  rcases List.mem_cons.1 h with h1 | h1
  · exact absurd h1 (by decide)
  rcases List.mem_append.1 h1 with h2 | h2
  · exact flatten_escaped_newline lib _ h2
  · exact absurd (List.mem_singleton.1 h2) (by decide)

theorem Quote_length (lib : GoLib) (s : String) : s.length + 2 ≤ (Quote lib s).length := by
  have := flatten_escaped_length lib s.data
  unfold Quote
  simp only [String.length, List.length_cons, List.length_append, List.length_nil] at *
  omega

/-! ## The rendered line -/

/-- C7, as the code has it: the rendered line is the key, ` : `, the type tag,
` = ` and then the value as a Go string literal (`%#v` on a string), not the
value verbatim: the value stands between two double quotes, escaped rune by
rune (unchanged when it is printable ASCII without `"` and `\`), so the line is
never the verbatim concatenation. -/
theorem plistItem_String_quoted (lib : GoLib) (p : plistItem) :
    (∃ body : String,
      plistItem.String lib p = p.key ++ " : " ++ p.vtype ++ " = " ++ "\"" ++ body ++ "\"" ∧
      body.data = (p.value.data.map (appendEscapedRune lib)).flatten ∧
      ((∀ c ∈ p.value.data, plainChar c = true) → body = p.value)) ∧
    plistItem.String lib p ≠ p.key ++ " : " ++ p.vtype ++ " = " ++ p.value := by
  refine ⟨⟨⟨(p.value.data.map (appendEscapedRune lib)).flatten⟩, ?_, rfl, ?_⟩, ?_⟩
  · unfold plistItem.String Quote
    rw [String.ext_iff]
    simp [String.data_append]
  · intro h
    rw [String.ext_iff]
    exact flatten_escaped_plain lib _ h
  · intro h
    have hlen := congrArg String.length h
    have := Quote_length lib p.value
    unfold plistItem.String at hlen
    simp only [String.length_append] at hlen
    omega

/-- C7 fails as stated: for the document `{"x": "1", "y": true}` the stored
values are `"1"` (with its quotes) and `true`, and the lines end with
`= "\"1\""` and `= "true"`; they are not key, type tag and value verbatim. -/
theorem plistItem_String_not_verbatim :
    (∀ lib : GoLib, iterateMaps lib [("x", .string "1"), ("y", .bool true)] "" []
      = [⟨".'x'", "string", "\"1\""⟩, ⟨".'y'", "bool", "true"⟩]) ∧
    (∀ lib : GoLib, plistItem.String lib ⟨".'x'", "string", "\"1\""⟩
      = ".'x' : string = \"\\\"1\\\"\"") ∧
    (∀ lib : GoLib, plistItem.String lib ⟨".'y'", "bool", "true"⟩
      = ".'y' : bool = \"true\"") ∧
    (".'x' : string = \"\\\"1\\\"\"" : String) ≠ ".'x'" ++ " : " ++ "string" ++ " = " ++ "\"1\"" ∧
    (".'y' : bool = \"true\"" : String) ≠ ".'y'" ++ " : " ++ "bool" ++ " = " ++ "true" :=
  ⟨fun _ => rfl, fun _ => rfl, fun _ => rfl, by decide, by decide⟩

/-! ## Flattening -/

mutual
theorem handleContent_acc (lib : GoLib) : ∀ (v : Value) (key : String) (p : List plistItem),
    handleContent lib v key p = p ++ handleContent lib v key []
  | .string _, _, _ => by simp [handleContent]
  | .bool _, _, _ => by simp [handleContent]
  | .bytes _, _, _ => by simp [handleContent]
  | .uint64 _, _, _ => by simp [handleContent]
  | .int64 _, _, _ => by simp [handleContent]
  | .float32 _, _, _ => by simp [handleContent]
  | .float64 _, _, _ => by simp [handleContent]
  | .time _, _, _ => by simp [handleContent]
  | .map items, key, p => by
    simp only [handleContent]
    exact iterateMaps_acc lib items key p
  | .slice items, key, p => by
    simp only [handleContent]
    exact iterateSlicesFrom_acc lib items 0 key p
  | .other _, _, _ => by simp [handleContent]
theorem iterateMaps_acc (lib : GoLib) : ∀ (items : List (String × Value)) (key : String)
    (p : List plistItem), iterateMaps lib items key p = p ++ iterateMaps lib items key []
  | [], _, _ => by simp [iterateMaps]
  | (k, i) :: rest, key, p => by
    simp only [iterateMaps]
    rw [iterateMaps_acc lib rest key (handleContent lib i _ p),
      iterateMaps_acc lib rest key (handleContent lib i _ []), handleContent_acc lib i _ p,
      List.append_assoc]
theorem iterateSlicesFrom_acc (lib : GoLib) : ∀ (items : List Value) (k : Nat) (key : String)
    (p : List plistItem),
    iterateSlicesFrom lib items k key p = p ++ iterateSlicesFrom lib items k key []
  | [], _, _, _ => by simp [iterateSlicesFrom]
  | i :: rest, k, key, p => by
    simp only [iterateSlicesFrom]
    rw [iterateSlicesFrom_acc lib rest _ key (handleContent lib i _ p),
      iterateSlicesFrom_acc lib rest _ key (handleContent lib i _ []),
      handleContent_acc lib i _ p, List.append_assoc]
end

theorem iterateMaps_cons (lib : GoLib) (k : String) (i : Value) (rest : List (String × Value))
    (key : String) :
    iterateMaps lib ((k, i) :: rest) key []
      = handleContent lib i (key ++ ".'" ++ k ++ "'") [] ++ iterateMaps lib rest key [] := by
  rw [iterateMaps, iterateMaps_acc]

theorem iterateSlicesFrom_cons (lib : GoLib) (i : Value) (rest : List Value) (k : Nat)
    (key : String) :
    iterateSlicesFrom lib (i :: rest) k key []
      = handleContent lib i (key ++ ".'" ++ fmtD k ++ "'") []
        ++ iterateSlicesFrom lib rest (k + 1) key [] := by
  rw [iterateSlicesFrom, iterateSlicesFrom_acc]

theorem pathOf_cons (seg : Segment) (segs : List Segment) :
    pathOf (seg :: segs) = seg.piece ++ pathOf segs := by
  rw [String.ext_iff]
  simp [pathOf, join_data, String.data_append]

theorem key_pathOf_key (key k : String) (segs : List Segment) :
    key ++ pathOf (Segment.key k :: segs) = key ++ ".'" ++ k ++ "'" ++ pathOf segs := by
  rw [pathOf_cons, String.ext_iff]
  simp [Segment.piece, String.data_append]

theorem key_pathOf_index (key : String) (i : Nat) (segs : List Segment) :
    key ++ pathOf (Segment.index i :: segs) = key ++ ".'" ++ fmtD i ++ "'" ++ pathOf segs := by
  rw [pathOf_cons, String.ext_iff]
  simp [Segment.piece, String.data_append]

theorem key_pathOf_nil (key : String) : key ++ pathOf [] = key := by
  rw [String.ext_iff]
  simp [pathOf, join_data, String.data_append]

mutual
theorem handleContent_keys (lib : GoLib) : ∀ (v : Value) (key : String),
    (handleContent lib v key []).map plistItem.key
      = (leafPaths v).map (fun segs => key ++ pathOf segs)
  | .string _, key => by simp [handleContent, leafPaths, key_pathOf_nil]
  | .bool _, key => by simp [handleContent, leafPaths, key_pathOf_nil]
  | .bytes _, key => by simp [handleContent, leafPaths, key_pathOf_nil]
  | .uint64 _, key => by simp [handleContent, leafPaths, key_pathOf_nil]
  | .int64 _, key => by simp [handleContent, leafPaths, key_pathOf_nil]
  | .float32 _, key => by simp [handleContent, leafPaths, key_pathOf_nil]
  | .float64 _, key => by simp [handleContent, leafPaths, key_pathOf_nil]
  | .time _, key => by simp [handleContent, leafPaths, key_pathOf_nil]
  | .map items, key => by
    simp only [handleContent, leafPaths]
    exact iterateMaps_keys lib items key
  | .slice items, key => by
    simp only [handleContent, leafPaths]
    exact iterateSlicesFrom_keys lib items 0 key
  | .other _, key => by simp [handleContent, leafPaths]
theorem iterateMaps_keys (lib : GoLib) : ∀ (items : List (String × Value)) (key : String),
    (iterateMaps lib items key []).map plistItem.key
      = (leafPathsMap items).map (fun segs => key ++ pathOf segs)
  | [], _ => by simp [iterateMaps, leafPathsMap]
  | (k, i) :: rest, key => by
    rw [iterateMaps_cons, leafPathsMap, List.map_append, List.map_append,
      handleContent_keys lib i, iterateMaps_keys lib rest key, List.map_map]
    congr 1
    apply List.map_congr_left
    intro segs _
    exact (key_pathOf_key key k segs).symm
theorem iterateSlicesFrom_keys (lib : GoLib) : ∀ (items : List Value) (k : Nat) (key : String),
    (iterateSlicesFrom lib items k key []).map plistItem.key
      = (leafPathsSlice items k).map (fun segs => key ++ pathOf segs)
  | [], _, _ => by simp [iterateSlicesFrom, leafPathsSlice]
  | i :: rest, k, key => by
    rw [iterateSlicesFrom_cons, leafPathsSlice, List.map_append, List.map_append,
      handleContent_keys lib i, iterateSlicesFrom_keys lib rest (k + 1) key, List.map_map]
    congr 1
    apply List.map_congr_left
    intro segs _
    exact (key_pathOf_index key k segs).symm
end

mutual
theorem handleContent_length (lib : GoLib) : ∀ (v : Value) (key : String),
    (handleContent lib v key []).length = countLeaves v
  | .string _, _ => by simp [handleContent, countLeaves]
  | .bool _, _ => by simp [handleContent, countLeaves]
  | .bytes _, _ => by simp [handleContent, countLeaves]
  | .uint64 _, _ => by simp [handleContent, countLeaves]
  | .int64 _, _ => by simp [handleContent, countLeaves]
  | .float32 _, _ => by simp [handleContent, countLeaves]
  | .float64 _, _ => by simp [handleContent, countLeaves]
  | .time _, _ => by simp [handleContent, countLeaves]
  | .map items, key => by
    simp only [handleContent, countLeaves]
    exact iterateMaps_length lib items key
  | .slice items, key => by
    simp only [handleContent, countLeaves]
    exact iterateSlicesFrom_length lib items 0 key
  | .other _, _ => by simp [handleContent, countLeaves]
theorem iterateMaps_length (lib : GoLib) : ∀ (items : List (String × Value)) (key : String),
    (iterateMaps lib items key []).length = countLeavesMap items
  | [], _ => by simp [iterateMaps, countLeavesMap]
  | (k, i) :: rest, key => by
    rw [iterateMaps_cons, countLeavesMap, List.length_append, handleContent_length lib i,
      iterateMaps_length lib rest key]
theorem iterateSlicesFrom_length (lib : GoLib) : ∀ (items : List Value) (k : Nat) (key : String),
    (iterateSlicesFrom lib items k key []).length = countLeavesSlice items
  | [], _, _ => by simp [iterateSlicesFrom, countLeavesSlice]
  | i :: rest, k, key => by
    rw [iterateSlicesFrom_cons, countLeavesSlice, List.length_append,
      handleContent_length lib i, iterateSlicesFrom_length lib rest (k + 1) key]
end

theorem empty_append (s : String) : "" ++ s = s := by
  rw [String.ext_iff]
  simp [String.data_append]

/-- C9: the path of every leaf entry is the concatenation, root to leaf, of one
piece `.'t'` per segment, `t` being the mapping key or the decimal index; the
document `{"a": {"b": [1, 2]}}` flattens to exactly two entries, with paths
`.'a'.'b'.'0'` and `.'a'.'b'.'1'`. -/
theorem flatten_path_pieces (lib : GoLib) (foo : List (String × Value)) :
    (iterateMaps lib foo "" []).map plistItem.key = (leafPathsMap foo).map pathOf ∧
    iterateMaps lib [("a", .map [("b", .slice [.uint64 1, .uint64 2])])] "" []
      = [⟨".'a'.'b'.'0'", "uint64", "0x1"⟩, ⟨".'a'.'b'.'1'", "uint64", "0x2"⟩] ∧
    pathOf [.key "a", .key "b", .index 1] = ".'a'.'b'.'1'" := by
  refine ⟨?_, rfl, by decide⟩
  rw [iterateMaps_keys]
  apply List.map_congr_left
  intro segs _
  exact empty_append _

/-- C5: flattening appends exactly one entry per scalar node of a recognized
kind and none for mappings, sequences and nodes of unrecognized kind, so the
snapshot has as many entries as the document has recognized scalar leaves; an
unrecognized leaf (here a `plist.UID`) leaves the entries of its siblings in
place. -/
theorem flatten_length (lib : GoLib) (foo : List (String × Value)) :
    (iterateMaps lib foo "" []).length = countLeavesMap foo ∧
    iterateMaps lib [("a", .other "plist.UID"), ("b", .bool true),
        ("c", .slice [.other "plist.UID", .string "s"])] "" []
      = [⟨".'b'", "bool", "true"⟩, ⟨".'c'.'1'", "string", "\"s\""⟩] :=
  ⟨iterateMaps_length lib foo "", rfl⟩

/-! ## Uniqueness of paths -/

theorem handleContent_prefix (lib : GoLib) (v : Value) (key : String) :
    ∀ e ∈ handleContent lib v key [], ∃ r : String, e.key = key ++ r := by
  intro e he
  have hmem : e.key ∈ (handleContent lib v key []).map plistItem.key :=
    List.mem_map_of_mem _ he
  rw [handleContent_keys] at hmem
  obtain ⟨segs, _, hs⟩ := List.mem_map.1 hmem
  exact ⟨pathOf segs, hs.symm⟩

theorem iterateMaps_shape (lib : GoLib) (items : List (String × Value)) (key : String) :
    ∀ e ∈ iterateMaps lib items key [],
      ∃ k ∈ items.map Prod.fst, ∃ r : String, e.key = key ++ ".'" ++ k ++ "'" ++ r := by
  induction items with
  | nil => intro e he; simp [iterateMaps] at he
  | cons a rest ih =>
    obtain ⟨k, i⟩ := a
    intro e he
    rw [iterateMaps_cons] at he
    rcases List.mem_append.1 he with h | h
    · obtain ⟨r, hr⟩ := handleContent_prefix lib i _ e h
      exact ⟨k, by simp, r, hr⟩
    · obtain ⟨k2, hk2, r, hr⟩ := ih e h
      exact ⟨k2, List.mem_cons_of_mem _ hk2, r, hr⟩

theorem iterateSlicesFrom_shape (lib : GoLib) (items : List Value) (key : String) :
    ∀ (n : Nat), ∀ e ∈ iterateSlicesFrom lib items n key [],
      ∃ m, n ≤ m ∧ ∃ r : String, e.key = key ++ ".'" ++ fmtD m ++ "'" ++ r := by
  induction items with
  | nil => intro n e he; simp [iterateSlicesFrom] at he
  | cons i rest ih =>
    intro n e he
    rw [iterateSlicesFrom_cons] at he
    rcases List.mem_append.1 he with h | h
    · obtain ⟨r, hr⟩ := handleContent_prefix lib i _ e h
      exact ⟨n, le_refl _, r, hr⟩
    · obtain ⟨m, hm, r, hr⟩ := ih (n + 1) e h
      exact ⟨m, by omega, r, hr⟩

theorem append_sep_cancel (q : Char) : ∀ (a b r1 r2 : List Char), q ∉ a → q ∉ b →
    a ++ q :: r1 = b ++ q :: r2 → a = b
  | [], [], _, _, _, _, _ => rfl
  | [], y :: b, r1, r2, _, hb, h => by
    simp only [List.nil_append, List.cons_append, List.cons.injEq] at h
    exact absurd (h.1 ▸ List.mem_cons_self _ _) hb
  | x :: a, [], r1, r2, ha, _, h => by
    simp only [List.nil_append, List.cons_append, List.cons.injEq] at h
    exact absurd (h.1 ▸ List.mem_cons_self _ _) ha
  | x :: a, y :: b, r1, r2, ha, hb, h => by
    simp only [List.cons_append, List.cons.injEq] at h
    rw [h.1, append_sep_cancel q a b r1 r2 (fun hm => ha (List.mem_cons_of_mem _ hm))
      (fun hm => hb (List.mem_cons_of_mem _ hm)) h.2]

theorem piece_cancel (key a b r1 r2 : String) (ha : quoteChar ∉ a.data)
    (hb : quoteChar ∉ b.data)
    (h : key ++ ".'" ++ a ++ "'" ++ r1 = key ++ ".'" ++ b ++ "'" ++ r2) : a = b := by
  have e1 : ("'" : String).data = [quoteChar] := rfl
  rw [String.ext_iff] at h ⊢
  simp only [String.data_append, List.append_assoc, e1, List.singleton_append] at h
  exact append_sep_cancel quoteChar _ _ _ _ ha hb
    (List.append_cancel_left (List.append_cancel_left h))

theorem fmtD_quote (k : Nat) : quoteChar ∉ (fmtD k).data := by
  intro h
  have := fmtD_hex k _ h
  revert this
  decide

theorem fst_mem_mapKeysMap (items : List (String × Value)) :
    ∀ k ∈ items.map Prod.fst, k ∈ mapKeysMap items := by
  induction items with
  | nil => intro k hk; simp at hk
  | cons a rest ih =>
    obtain ⟨k0, v⟩ := a
    intro k hk
    rw [List.map_cons, List.mem_cons] at hk
    rw [mapKeysMap, List.mem_cons, List.mem_append]
    rcases hk with h | h
    · exact Or.inl h
    · exact Or.inr (Or.inr (ih k h))

mutual
theorem handleContent_nodup (lib : GoLib) : ∀ (v : Value) (key : String),
    distinctKeys v = true → (∀ k ∈ mapKeys v, quoteChar ∉ k.data) →
    ((handleContent lib v key []).map plistItem.key).Nodup
  | .string _, _, _, _ => by simp [handleContent]
  | .bool _, _, _, _ => by simp [handleContent]
  | .bytes _, _, _, _ => by simp [handleContent]
  | .uint64 _, _, _, _ => by simp [handleContent]
  | .int64 _, _, _, _ => by simp [handleContent]
  | .float32 _, _, _, _ => by simp [handleContent]
  | .float64 _, _, _, _ => by simp [handleContent]
  | .time _, _, _, _ => by simp [handleContent]
  | .map items, key, hd, hq => by
    simp only [distinctKeys, Bool.and_eq_true, decide_eq_true_eq] at hd
    simp only [mapKeys] at hq
    simp only [handleContent]
    exact iterateMaps_nodup lib items key hd.1 hd.2 hq
  | .slice items, key, hd, hq => by
    simp only [distinctKeys] at hd
    simp only [mapKeys] at hq
    simp only [handleContent]
    exact iterateSlicesFrom_nodup lib items 0 key hd hq
  | .other _, _, _, _ => by simp [handleContent]
theorem iterateMaps_nodup (lib : GoLib) : ∀ (items : List (String × Value)) (key : String),
    (items.map Prod.fst).Nodup → distinctKeysMap items = true →
    (∀ k ∈ mapKeysMap items, quoteChar ∉ k.data) →
    ((iterateMaps lib items key []).map plistItem.key).Nodup
  | [], _, _, _, _ => by simp [iterateMaps]
  | (k, i) :: rest, key, hn, hd, hq => by
    rw [iterateMaps_cons, List.map_append]
    simp only [distinctKeysMap, Bool.and_eq_true] at hd
    have hn2 := List.nodup_cons.1 hn
    have hqk : quoteChar ∉ k.data := hq k (by simp [mapKeysMap])
    have hqi : ∀ x ∈ mapKeys i, quoteChar ∉ x.data :=
      fun x hx => hq x (by simp [mapKeysMap, hx])
    have hqr : ∀ x ∈ mapKeysMap rest, quoteChar ∉ x.data :=
      fun x hx => hq x (by simp [mapKeysMap, hx])
    refine List.Nodup.append (handleContent_nodup lib i _ hd.1 hqi)
      (iterateMaps_nodup lib rest key hn2.2 hd.2 hqr) ?_
    intro x hx1 hx2
    obtain ⟨e1, he1, h1⟩ := List.mem_map.1 hx1
    obtain ⟨e2, he2, h2⟩ := List.mem_map.1 hx2
    obtain ⟨r1, hr1⟩ := handleContent_prefix lib i _ e1 he1
    obtain ⟨k2, hk2, r2, hr2⟩ := iterateMaps_shape lib rest key e2 he2
    have hk : k2 = k :=
      piece_cancel key k2 k r2 r1 (hqr k2 (fst_mem_mapKeysMap rest k2 hk2)) hqk
        (by rw [← hr2, ← hr1, h1, h2])
    exact hn2.1 (hk ▸ hk2)
theorem iterateSlicesFrom_nodup (lib : GoLib) : ∀ (items : List Value) (n : Nat) (key : String),
    distinctKeysSlice items = true → (∀ k ∈ mapKeysSlice items, quoteChar ∉ k.data) →
    ((iterateSlicesFrom lib items n key []).map plistItem.key).Nodup
  | [], _, _, _, _ => by simp [iterateSlicesFrom]
  | i :: rest, n, key, hd, hq => by
    rw [iterateSlicesFrom_cons, List.map_append]
    simp only [distinctKeysSlice, Bool.and_eq_true] at hd
    have hqi : ∀ x ∈ mapKeys i, quoteChar ∉ x.data :=
      fun x hx => hq x (by simp [mapKeysSlice, hx])
    have hqr : ∀ x ∈ mapKeysSlice rest, quoteChar ∉ x.data :=
      fun x hx => hq x (by simp [mapKeysSlice, hx])
    refine List.Nodup.append (handleContent_nodup lib i _ hd.1 hqi)
      (iterateSlicesFrom_nodup lib rest (n + 1) key hd.2 hqr) ?_
    intro x hx1 hx2
    obtain ⟨e1, he1, h1⟩ := List.mem_map.1 hx1
    obtain ⟨e2, he2, h2⟩ := List.mem_map.1 hx2
    obtain ⟨r1, hr1⟩ := handleContent_prefix lib i _ e1 he1
    obtain ⟨m, hm, r2, hr2⟩ := iterateSlicesFrom_shape lib rest key (n + 1) e2 he2
    have hk : fmtD m = fmtD n :=
      piece_cancel key (fmtD m) (fmtD n) r2 r1 (fmtD_quote m) (fmtD_quote n)
        (by rw [← hr2, ← hr1, h1, h2])
    have := fmtD_injective m n hk
    omega
end

/-- C4, as the code has it: when every mapping of the document has pairwise
distinct keys AND no mapping key contains the single quote, no two leaf entries
of the flattened snapshot have equal paths.  (Paths are built without escaping,
so a key that contains a quote can imitate a nested path.) -/
theorem flatten_paths_nodup (lib : GoLib) (foo : List (String × Value))
    (hd : distinctKeys (.map foo) = true)
    (hq : ∀ k ∈ mapKeys (.map foo), quoteChar ∉ k.data) :
    ((iterateMaps lib foo "" []).map plistItem.key).Nodup :=
  handleContent_nodup lib (.map foo) "" hd hq

theorem flatten_paths_nodup_witness :
    ((iterateMaps GoLib.sample
      [("a", .map [("b", .slice [.uint64 1, .uint64 2])]), ("a.b", .bool true)] "" []).map
        plistItem.key).Nodup :=
  flatten_paths_nodup GoLib.sample _ (by decide) (by decide)

/-- C4 fails as stated: the document `{"a": {"b": 1}, "a'.'b": 2}` has distinct
keys at every level, and both of its leaves get the path `.'a'.'b'`. -/
theorem flatten_paths_collide :
    distinctKeys (.map [("a", .map [("b", .uint64 1)]), ("a'.'b", .uint64 2)]) = true ∧
    (∀ lib : GoLib,
      iterateMaps lib [("a", .map [("b", .uint64 1)]), ("a'.'b", .uint64 2)] "" []
        = [⟨".'a'.'b'", "uint64", "0x1"⟩, ⟨".'a'.'b'", "uint64", "0x2"⟩]) ∧
    ¬ ((iterateMaps GoLib.sample
        [("a", .map [("b", .uint64 1)]), ("a'.'b", .uint64 2)] "" []).map plistItem.key).Nodup :=
  ⟨by decide, fun _ => rfl, by decide⟩

/-! ## Integers -/

theorem goSyntaxInt64_data (v : Int) (hlo : -2 ^ 63 ≤ v) (hhi : v < 2 ^ 63) :
    (goSyntaxInt64 v).data
      = (if v < 0 then ['-'] else []) ++ (fmtUnsigned 10 v.natAbs).data := by
  unfold goSyntaxInt64
  by_cases hv : v < 0
  · have hu : 2 ^ 63 ≤ (v % 2 ^ 64).toNat := by omega
    have hn : (2 ^ 64 - (v % 2 ^ 64).toNat) % 2 ^ 64 = v.natAbs := by omega
    simp only [hu, if_true, hv, hn, String.data_append]
  · have hu : ¬ 2 ^ 63 ≤ (v % 2 ^ 64).toNat := by omega
    have hn : (v % 2 ^ 64).toNat = v.natAbs := by omega
    rw [if_neg hu, if_neg hv, hn, List.nil_append]

/-- C8, as the code has it: a signed integer (`int64`) leaf is stored as its
base-10 digit string, with a leading minus sign exactly when it is negative; an
unsigned integer (`uint64`) leaf is stored in Go syntax, `0x` followed by its
lower-case base-16 digit string, not in base 10. -/
theorem handleContent_integer (lib : GoLib) (key : String) (p : List plistItem)
    (v : Int) (hlo : -2 ^ 63 ≤ v) (hhi : v < 2 ^ 63) (u : Nat) (hu : u < 2 ^ 64) :
    (∃ ds : List Char, IsNumeral 10 v.natAbs ds ∧
      handleContent lib (.int64 v) key p
        = p ++ [⟨key, "int64", ⟨(if v < 0 then ['-'] else []) ++ ds⟩⟩]) ∧
    (∃ hs : List Char, IsNumeral 16 u hs ∧
      handleContent lib (.uint64 u) key p = p ++ [⟨key, "uint64", ⟨'0' :: 'x' :: hs⟩⟩]) := by
  constructor
  · refine ⟨(fmtUnsigned 10 v.natAbs).data,
      fmtUnsigned_isNumeral 10 (by omega) (by omega) _, ?_⟩
    simp only [handleContent]
    rw [← goSyntaxInt64_data v hlo hhi]
  · refine ⟨(fmtUnsigned 16 u).data, fmtUnsigned_isNumeral 16 (by omega) (by omega) _, ?_⟩
    simp only [handleContent, goSyntaxUint64, fmt0x64, Nat.mod_eq_of_lt hu]
    rfl

theorem handleContent_integer_witness :
    (∃ ds : List Char, IsNumeral 10 (-42 : Int).natAbs ds ∧
      handleContent GoLib.sample (.int64 (-42)) ".'n'" []
        = [] ++ [⟨".'n'", "int64", ⟨(if (-42 : Int) < 0 then ['-'] else []) ++ ds⟩⟩]) ∧
    (∃ hs : List Char, IsNumeral 16 255 hs ∧
      handleContent GoLib.sample (.uint64 255) ".'n'" []
        = [] ++ [⟨".'n'", "uint64", ⟨'0' :: 'x' :: hs⟩⟩]) :=
  handleContent_integer GoLib.sample ".'n'" [] (-42) (by decide) (by decide) 255 (by decide)

/-- C8 fails as stated: the unsigned integers 10 and 255 are stored as `0xa` and
`0xff`, not as `10` and `255`; the signed integer -42 is stored as `-42`. -/
theorem handleContent_uint64_hex :
    (∀ lib : GoLib, handleContent lib (.uint64 10) ".'n'" [] = [⟨".'n'", "uint64", "0xa"⟩]) ∧
    (∀ lib : GoLib, handleContent lib (.uint64 255) ".'n'" [] = [⟨".'n'", "uint64", "0xff"⟩]) ∧
    (∀ lib : GoLib, handleContent lib (.int64 (-42)) ".'n'" [] = [⟨".'n'", "int64", "-42"⟩]) ∧
    ("0xa" : String) ≠ "10" ∧ ("0xff" : String) ≠ "255" :=
  ⟨fun _ => rfl, fun _ => rfl, fun _ => rfl, by decide, by decide⟩

/-! ## Line breaks -/

theorem line_count (lib : GoLib) (p : plistItem) (hk : '\n' ∉ p.key.data)
    (hv : '\n' ∉ p.vtype.data) :
    (plistItem.String lib p ++ "\n").data.count '\n' = 1 := by
  have hq := Quote_newline lib p.value
  unfold plistItem.String
  simp only [String.data_append, List.count_append, List.count_eq_zero.2 hk,
    List.count_eq_zero.2 hv, List.count_eq_zero.2 hq]
  rfl

theorem lines_count (lib : GoLib) (l : List plistItem)
    (h : ∀ p ∈ l, '\n' ∉ p.key.data ∧ '\n' ∉ p.vtype.data) :
    (String.join (l.map (fun p => plistItem.String lib p ++ "\n"))).data.count '\n'
      = l.length := by
  rw [join_data, List.map_map]
  induction l with
  | nil => rfl
  | cons a l ih =>
    have ha := h a (List.mem_cons_self _ _)
    simp only [List.map_cons, List.flatten_cons, List.count_append, List.length_cons,
      Function.comp_apply]
    rw [line_count lib a ha.1 ha.2, ih (fun p hp => h p (List.mem_cons_of_mem _ hp))]
    omega

theorem lines_getLast (lib : GoLib) (l : List plistItem) (h : l ≠ []) :
    (String.join (l.map (fun p => plistItem.String lib p ++ "\n"))).data.getLast?
      = some '\n' := by
  rw [join_data, List.map_map]
  induction l with
  | nil => exact absurd rfl h
  | cons a l ih =>
    simp only [List.map_cons, List.flatten_cons, Function.comp_apply]
    by_cases hl : l = []
    · subst hl
      simp only [List.map_nil, List.flatten_nil, List.append_nil, String.data_append]
      exact List.getLast?_concat _
    · rw [List.getLast?_append, ih hl]
      rfl

theorem append_newline (a b : String) (ha : '\n' ∉ a.data) (hb : '\n' ∉ b.data) :
    '\n' ∉ (a ++ b).data := by
  rw [String.data_append, List.mem_append]
  exact fun h => h.elim ha hb

theorem fmtD_newline (k : Nat) : '\n' ∉ (fmtD k).data :=
  fun h => hex_ne_newline _ (fmtD_hex k _ h) rfl

mutual
theorem handleContent_newline (lib : GoLib) : ∀ (v : Value) (key : String),
    '\n' ∉ key.data → (∀ k ∈ mapKeys v, '\n' ∉ k.data) →
    ∀ e ∈ handleContent lib v key [], '\n' ∉ e.key.data ∧ '\n' ∉ e.vtype.data
  | .string _, _, hk, _, e, he => by
    simp only [handleContent, List.nil_append, List.mem_singleton] at he
    subst he
    exact ⟨hk, (by decide : '\n' ∉ ("string" : String).data)⟩
  | .bool _, _, hk, _, e, he => by
    simp only [handleContent, List.nil_append, List.mem_singleton] at he
    subst he
    exact ⟨hk, (by decide : '\n' ∉ ("bool" : String).data)⟩
  | .bytes _, _, hk, _, e, he => by
    simp only [handleContent, List.nil_append, List.mem_singleton] at he
    subst he
    exact ⟨hk, (by decide : '\n' ∉ ("[]uint8" : String).data)⟩
  | .uint64 _, _, hk, _, e, he => by
    simp only [handleContent, List.nil_append, List.mem_singleton] at he
    subst he
    exact ⟨hk, (by decide : '\n' ∉ ("uint64" : String).data)⟩
  | .int64 _, _, hk, _, e, he => by
    simp only [handleContent, List.nil_append, List.mem_singleton] at he
    subst he
    exact ⟨hk, (by decide : '\n' ∉ ("int64" : String).data)⟩
  | .float32 _, _, hk, _, e, he => by
    simp only [handleContent, List.nil_append, List.mem_singleton] at he
    subst he
    exact ⟨hk, (by decide : '\n' ∉ ("float32" : String).data)⟩
  | .float64 _, _, hk, _, e, he => by
    simp only [handleContent, List.nil_append, List.mem_singleton] at he
    subst he
    exact ⟨hk, (by decide : '\n' ∉ ("float64" : String).data)⟩
  | .time _, _, hk, _, e, he => by
    simp only [handleContent, List.nil_append, List.mem_singleton] at he
    subst he
    exact ⟨hk, (by decide : '\n' ∉ ("time.Time" : String).data)⟩
  | .map items, key, hk, hq, e, he => by
    simp only [mapKeys] at hq
    simp only [handleContent] at he
    exact iterateMaps_newline lib items key hk hq e he
  | .slice items, key, hk, hq, e, he => by
    simp only [mapKeys] at hq
    simp only [handleContent] at he
    exact iterateSlicesFrom_newline lib items 0 key hk hq e he
  | .other _, _, _, _, e, he => by
    simp only [handleContent, List.not_mem_nil] at he
theorem iterateMaps_newline (lib : GoLib) : ∀ (items : List (String × Value)) (key : String),
    '\n' ∉ key.data → (∀ k ∈ mapKeysMap items, '\n' ∉ k.data) →
    ∀ e ∈ iterateMaps lib items key [], '\n' ∉ e.key.data ∧ '\n' ∉ e.vtype.data
  | [], _, _, _, e, he => by
    simp only [iterateMaps, List.not_mem_nil] at he
  | (k, i) :: rest, key, hk, hq, e, he => by
    rw [iterateMaps_cons] at he
    have hkk : '\n' ∉ k.data := hq k (by simp [mapKeysMap])
    have hkey : '\n' ∉ (key ++ ".'" ++ k ++ "'").data :=
      append_newline _ _ (append_newline _ _ (append_newline _ _ hk (by decide)) hkk)
        (by decide)
    rcases List.mem_append.1 he with h | h
    · exact handleContent_newline lib i _ hkey
        (fun x hx => hq x (by simp [mapKeysMap, hx])) e h
    · exact iterateMaps_newline lib rest key hk
        (fun x hx => hq x (by simp [mapKeysMap, hx])) e h
theorem iterateSlicesFrom_newline (lib : GoLib) : ∀ (items : List Value) (n : Nat)
    (key : String), '\n' ∉ key.data → (∀ k ∈ mapKeysSlice items, '\n' ∉ k.data) →
    ∀ e ∈ iterateSlicesFrom lib items n key [], '\n' ∉ e.key.data ∧ '\n' ∉ e.vtype.data
  | [], _, _, _, _, e, he => by
    simp only [iterateSlicesFrom, List.not_mem_nil] at he
  | i :: rest, n, key, hk, hq, e, he => by
    rw [iterateSlicesFrom_cons] at he
    have hkey : '\n' ∉ (key ++ ".'" ++ fmtD n ++ "'").data :=
      append_newline _ _ (append_newline _ _ (append_newline _ _ hk (by decide))
        (fmtD_newline n)) (by decide)
    rcases List.mem_append.1 he with h | h
    · exact handleContent_newline lib i _ hkey
        (fun x hx => hq x (by simp [mapKeysSlice, hx])) e h
    · exact iterateSlicesFrom_newline lib rest (n + 1) key hk
        (fun x hx => hq x (by simp [mapKeysSlice, hx])) e h
end

/-- C10, as the code has it: for the snapshot `q` of a document none of whose
mapping keys contains a line break, the text of `plistString q` holds exactly
`len(q)` line breaks, one at the end of each line, and ends with a line break
when `q` is not empty.  (Keys are written with `%s`, unescaped, so a line break
inside a key is one more line break in the text.) -/
theorem plistString_line_breaks (lib : GoLib) (foo : List (String × Value))
    (hk : ∀ k ∈ mapKeys (.map foo), '\n' ∉ k.data) :
    (plistString lib (iterateMaps lib foo "" [])).data.count '\n'
      = (iterateMaps lib foo "" []).length ∧
    (iterateMaps lib foo "" [] ≠ [] →
      (plistString lib (iterateMaps lib foo "" [])).data.getLast? = some '\n') := by
  have hperm := sortSlice_perm lib (iterateMaps lib foo "" [])
  constructor
  · unfold plistString
    rw [lines_count lib _ (fun p hp =>
      handleContent_newline lib (.map foo) "" (by decide) hk p (hperm.subset hp))]
    exact hperm.length_eq
  · intro hne
    unfold plistString
    refine lines_getLast lib _ (fun h => hne ?_)
    rw [h] at hperm
    exact hperm.symm.eq_nil

theorem plistString_line_breaks_witness :
    (plistString GoLib.sample
        (iterateMaps GoLib.sample [("x", .string "1\n2"), ("y", .bool true)] "" [])).data.count '\n'
      = (iterateMaps GoLib.sample [("x", .string "1\n2"), ("y", .bool true)] "" []).length ∧
    (iterateMaps GoLib.sample [("x", .string "1\n2"), ("y", .bool true)] "" [] ≠ [] →
      (plistString GoLib.sample
        (iterateMaps GoLib.sample [("x", .string "1\n2"), ("y", .bool true)] "" [])).data.getLast?
        = some '\n') :=
  plistString_line_breaks GoLib.sample _ (by decide)

/-- C10 fails as stated: the document with the single key `a`, line break, `b`
flattens to one entry, and its text holds two line breaks. -/
theorem plistString_key_line_break :
    (∀ lib : GoLib, iterateMaps lib [("a\nb", .bool true)] "" []
      = [⟨".'a\nb'", "bool", "true"⟩]) ∧
    (∀ lib : GoLib, plistString lib [⟨".'a\nb'", "bool", "true"⟩]
      = ".'a\nb' : bool = \"true\"\n") ∧
    (".'a\nb' : bool = \"true\"\n" : String).data.count '\n' = 2 ∧
    ([⟨".'a\nb'", "bool", "true"⟩] : List plistItem).length = 1 :=
  ⟨fun _ => rfl,
    fun lib => by rw [plistString_eq_insertionSortLess lib _ (by decide)]; rfl,
    by decide, rfl⟩

/-! ## The change handler -/

theorem plistString_singleton (lib : GoLib) (a : plistItem) :
    plistString lib [a] = plistItem.String lib a ++ "\n" := by
  unfold plistString
  rw [sortSlice_singleton]
  exact empty_append _

theorem plistString_nil (lib : GoLib) : plistString lib [] = "" := by
  unfold plistString
  rw [(sortSlice_perm lib []).eq_nil]
  rfl

theorem store_fileData_self (st : State) (file : String) (q : List plistItem) :
    (st.store file q).fileData file = some q := by
  simp [State.store]

theorem mainOnEvent_ok (lib : GoLib) (fs : String → File) (st : State) (event : Event)
    (oldQ newQ : List plistItem) (hop : event.Op = Create)
    (hold : st.fileData event.Name = some oldQ)
    (hnew : readPlist lib fs event.Name = .ok newQ) :
    mainOnEvent lib fs st event
      = ⟨(st.store event.Name (lib.sortSlice oldQ)).fileData,
          st.log ++ [.unified event.Name (plistString lib oldQ) (plistString lib newQ)]⟩ := by
  simp only [mainOnEvent, hop, if_true, hold, hnew]

/-- C1, as the code has it: handling a change notification for a tracked
document whose re-read succeeds logs the diff of the stored snapshot against
the new one and never stores the new one.  Afterwards `fileData` holds, for that
document, some reordering `l` of the entries it held before, in descending
order of key (the slice as the in-place sort of `plistString` left it; the
logged old text is the lines of `l`), and every other document is untouched.
A second notification is therefore again diffed against the lines of the
startup entries (a descending reordering `l2` of them, the same as `l` when
keys are pairwise distinct), not against the content seen at the first one. -/
theorem mainOnEvent_keeps_baseline (lib : GoLib) (fs fs2 : String → File) (st : State)
    (event : Event) (oldQ newQ newQ2 : List plistItem)
    (hop : event.Op = Create) (hold : st.fileData event.Name = some oldQ)
    (hnew : readPlist lib fs event.Name = .ok newQ)
    (hnew2 : readPlist lib fs2 event.Name = .ok newQ2) :
    ∃ l l2 : List plistItem,
      (l.Perm oldQ ∧ l.Pairwise (fun a b => b.key ≤ a.key)) ∧
      (l2.Perm oldQ ∧ l2.Pairwise (fun a b => b.key ≤ a.key)) ∧
      ((oldQ.map plistItem.key).Nodup → l2 = l) ∧
      (mainOnEvent lib fs st event).fileData event.Name = some l ∧
      (∀ f, f ≠ event.Name → (mainOnEvent lib fs st event).fileData f = st.fileData f) ∧
      (mainOnEvent lib fs st event).log
        = st.log ++ [.unified event.Name
            (String.join (l.map (fun p => plistItem.String lib p ++ "\n")))
            (plistString lib newQ)] ∧
      (mainOnEvent lib fs2 (mainOnEvent lib fs st event) event).fileData event.Name
        = some l2 ∧
      (mainOnEvent lib fs2 (mainOnEvent lib fs st event) event).log
        = st.log ++ [.unified event.Name
            (String.join (l.map (fun p => plistItem.String lib p ++ "\n")))
            (plistString lib newQ),
          .unified event.Name
            (String.join (l2.map (fun p => plistItem.String lib p ++ "\n")))
            (plistString lib newQ2)] := by
  have h1 := mainOnEvent_ok lib fs st event oldQ newQ hop hold hnew
  have hstored : (mainOnEvent lib fs st event).fileData event.Name
      = some (lib.sortSlice oldQ) := by
    rw [h1]
    exact store_fileData_self st _ _
  have h2 := mainOnEvent_ok lib fs2 (mainOnEvent lib fs st event) event (lib.sortSlice oldQ)
    newQ2 hop hstored hnew2
  refine ⟨lib.sortSlice oldQ, lib.sortSlice (lib.sortSlice oldQ),
    ⟨sortSlice_perm lib oldQ, sortSlice_descending lib oldQ⟩,
    ⟨(sortSlice_perm lib _).trans (sortSlice_perm lib oldQ), sortSlice_descending lib _⟩,
    sortSlice_idem lib oldQ, hstored, ?_, ?_, ?_, ?_⟩
  · intro f hf
    rw [h1]
    simp [State.store, hf]
  · rw [h1]
    rfl
  · rw [h2]
    exact store_fileData_self _ _ _
  · rw [h2, h1]
    simp only [List.append_assoc, List.singleton_append]
    rfl

theorem mainOnEvent_keeps_baseline_witness :
    ∃ l l2 : List plistItem,
      (l.Perm [⟨".'x'", "string", "\"1\""⟩, ⟨".'y'", "bool", "true"⟩] ∧
        l.Pairwise (fun a b => b.key ≤ a.key)) ∧
      (l2.Perm [⟨".'x'", "string", "\"1\""⟩, ⟨".'y'", "bool", "true"⟩] ∧
        l2.Pairwise (fun a b => b.key ≤ a.key)) ∧
      ((([⟨".'x'", "string", "\"1\""⟩, ⟨".'y'", "bool", "true"⟩] : List plistItem).map
          plistItem.key).Nodup → l2 = l) ∧
      (mainOnEvent GoLib.sample (fun _ => .opened [("x", .string "2"), ("y", .bool true)] false)
          ⟨fun _ => some [⟨".'x'", "string", "\"1\""⟩, ⟨".'y'", "bool", "true"⟩], []⟩
          ⟨"a.plist", Create⟩).fileData "a.plist" = some l ∧
      (∀ f, f ≠ "a.plist" →
        (mainOnEvent GoLib.sample
          (fun _ => .opened [("x", .string "2"), ("y", .bool true)] false)
          ⟨fun _ => some [⟨".'x'", "string", "\"1\""⟩, ⟨".'y'", "bool", "true"⟩], []⟩
          ⟨"a.plist", Create⟩).fileData f
        = some [⟨".'x'", "string", "\"1\""⟩, ⟨".'y'", "bool", "true"⟩]) ∧
      (mainOnEvent GoLib.sample (fun _ => .opened [("x", .string "2"), ("y", .bool true)] false)
          ⟨fun _ => some [⟨".'x'", "string", "\"1\""⟩, ⟨".'y'", "bool", "true"⟩], []⟩
          ⟨"a.plist", Create⟩).log
        = [] ++ [.unified "a.plist"
            (String.join (l.map (fun p => plistItem.String GoLib.sample p ++ "\n")))
            (plistString GoLib.sample [⟨".'x'", "string", "\"2\""⟩, ⟨".'y'", "bool", "true"⟩])] ∧
      (mainOnEvent GoLib.sample (fun _ => .opened [("x", .string "3"), ("y", .bool true)] false)
          (mainOnEvent GoLib.sample
            (fun _ => .opened [("x", .string "2"), ("y", .bool true)] false)
            ⟨fun _ => some [⟨".'x'", "string", "\"1\""⟩, ⟨".'y'", "bool", "true"⟩], []⟩
            ⟨"a.plist", Create⟩)
          ⟨"a.plist", Create⟩).fileData "a.plist" = some l2 ∧
      (mainOnEvent GoLib.sample (fun _ => .opened [("x", .string "3"), ("y", .bool true)] false)
          (mainOnEvent GoLib.sample
            (fun _ => .opened [("x", .string "2"), ("y", .bool true)] false)
            ⟨fun _ => some [⟨".'x'", "string", "\"1\""⟩, ⟨".'y'", "bool", "true"⟩], []⟩
            ⟨"a.plist", Create⟩)
          ⟨"a.plist", Create⟩).log
        = [] ++ [.unified "a.plist"
            (String.join (l.map (fun p => plistItem.String GoLib.sample p ++ "\n")))
            (plistString GoLib.sample [⟨".'x'", "string", "\"2\""⟩, ⟨".'y'", "bool", "true"⟩]),
          .unified "a.plist"
            (String.join (l2.map (fun p => plistItem.String GoLib.sample p ++ "\n")))
            (plistString GoLib.sample [⟨".'x'", "string", "\"3\""⟩, ⟨".'y'", "bool", "true"⟩])] :=
  mainOnEvent_keeps_baseline GoLib.sample
    (fun _ => .opened [("x", .string "2"), ("y", .bool true)] false)
    (fun _ => .opened [("x", .string "3"), ("y", .bool true)] false)
    ⟨fun _ => some [⟨".'x'", "string", "\"1\""⟩, ⟨".'y'", "bool", "true"⟩], []⟩ ⟨"a.plist", Create⟩
    [⟨".'x'", "string", "\"1\""⟩, ⟨".'y'", "bool", "true"⟩]
    [⟨".'x'", "string", "\"2\""⟩, ⟨".'y'", "bool", "true"⟩]
    [⟨".'x'", "string", "\"3\""⟩, ⟨".'y'", "bool", "true"⟩]
    rfl rfl rfl rfl

/-- C1 fails as stated: the document `a.plist` is read as `{"x": "1"}` at startup;
a notification arrives when it holds `{"x": "2"}` and the re-read succeeds; the
stored snapshot afterwards is still the one of `{"x": "1"}`, not the new one,
and a second notification (the document now holds `{"x": "3"}`) is diffed
against the startup text. -/
theorem mainOnEvent_not_replaced :
    (∀ lib : GoLib,
      (mainBaseline lib (fun _ => .opened [("x", .string "1")] false) ["a.plist"]
        State.init).fileData "a.plist" = some [⟨".'x'", "string", "\"1\""⟩]) ∧
    (∀ lib : GoLib,
      readPlist lib (fun _ => .opened [("x", .string "2")] false) "a.plist"
        = .ok [⟨".'x'", "string", "\"2\""⟩]) ∧
    (∀ lib : GoLib,
      (mainOnEvent lib (fun _ => .opened [("x", .string "2")] false)
        (mainBaseline lib (fun _ => .opened [("x", .string "1")] false) ["a.plist"] State.init)
        ⟨"a.plist", Create⟩).fileData "a.plist" = some [⟨".'x'", "string", "\"1\""⟩]) ∧
    (∀ lib : GoLib,
      (mainOnEvent lib (fun _ => .opened [("x", .string "3")] false)
        (mainOnEvent lib (fun _ => .opened [("x", .string "2")] false)
          (mainBaseline lib (fun _ => .opened [("x", .string "1")] false) ["a.plist"]
            State.init)
          ⟨"a.plist", Create⟩)
        ⟨"a.plist", Create⟩).log
      = [.unified "a.plist" ".'x' : string = \"\\\"1\\\"\"\n" ".'x' : string = \"\\\"2\\\"\"\n",
         .unified "a.plist" ".'x' : string = \"\\\"1\\\"\"\n" ".'x' : string = \"\\\"3\\\"\"\n"]) ∧
    (some [⟨".'x'", "string", "\"1\""⟩] : Option (List plistItem))
      ≠ some [⟨".'x'", "string", "\"2\""⟩] := by
  have h1 : ∀ lib : GoLib,
      mainOnEvent lib (fun _ => .opened [("x", .string "2")] false)
        (mainBaseline lib (fun _ => .opened [("x", .string "1")] false) ["a.plist"] State.init)
        ⟨"a.plist", Create⟩
      = ⟨((mainBaseline lib (fun _ => .opened [("x", .string "1")] false) ["a.plist"]
            State.init).store "a.plist" [⟨".'x'", "string", "\"1\""⟩]).fileData,
          [.unified "a.plist" ".'x' : string = \"\\\"1\\\"\"\n"
            ".'x' : string = \"\\\"2\\\"\"\n"]⟩ := by
    intro lib
    rw [mainOnEvent_ok lib (fun _ => .opened [("x", .string "2")] false)
      (mainBaseline lib (fun _ => .opened [("x", .string "1")] false) ["a.plist"] State.init)
      ⟨"a.plist", Create⟩ [⟨".'x'", "string", "\"1\""⟩]
      [⟨".'x'", "string", "\"2\""⟩] rfl rfl rfl]
    simp only [sortSlice_singleton, plistString_singleton]
    rfl
  refine ⟨fun _ => rfl, fun _ => rfl, fun lib => ?_, fun lib => ?_, by decide⟩
  · rw [h1 lib]
    rfl
  · have h2 := mainOnEvent_ok lib (fun _ => .opened [("x", .string "3")] false)
      (mainOnEvent lib (fun _ => .opened [("x", .string "2")] false)
        (mainBaseline lib (fun _ => .opened [("x", .string "1")] false) ["a.plist"] State.init)
        ⟨"a.plist", Create⟩)
      ⟨"a.plist", Create⟩ [⟨".'x'", "string", "\"1\""⟩]
      [⟨".'x'", "string", "\"3\""⟩] rfl (by rw [h1 lib]; rfl) rfl
    rw [h2, h1 lib]
    simp only [plistString_singleton]
    rfl

/-! ## Reading a document -/

/-- C6, the code at the failing input: a file that opens but does not decode
(`Decode` returns an error and leaves `foo` nil) makes `readPlist` return the
empty snapshot and no error; at startup the document is stored with the empty
snapshot, and a notification for a tracked document that no longer decodes
logs a diff against the empty text.  Only a file that does not open makes
`readPlist` fail. -/
theorem readPlist_decode_error_ignored :
    (∀ lib : GoLib, readPlist lib (fun _ => .opened [] true) "a.plist" = .ok []) ∧
    (∀ lib : GoLib,
      (mainBaseline lib (fun _ => .opened [] true) ["a.plist"] State.init).fileData "a.plist"
        = some []) ∧
    (∀ lib : GoLib,
      (mainBaseline lib (fun _ => .opened [] true) ["a.plist"] State.init).log = []) ∧
    (∀ lib : GoLib,
      (mainOnEvent lib (fun _ => .opened [] true)
        (mainBaseline lib (fun _ => .opened [("y", .bool true)] false) ["a.plist"] State.init)
        ⟨"a.plist", Create⟩).log
      = [.unified "a.plist" ".'y' : bool = \"true\"\n" ""]) ∧
    (∀ lib : GoLib,
      readPlist lib (fun _ => .unopenable "no such file") "a.plist"
        = .error "error opening a.plist: no such file") ∧
    (∀ lib : GoLib,
      (mainBaseline lib (fun _ => .unopenable "no such file") ["a.plist"]
        State.init).fileData "a.plist" = none) :=
  ⟨fun _ => rfl, fun _ => rfl, fun _ => rfl,
    fun lib => by
      rw [mainOnEvent_ok lib (fun _ => .opened [] true)
        (mainBaseline lib (fun _ => .opened [("y", .bool true)] false) ["a.plist"] State.init)
        ⟨"a.plist", Create⟩ [⟨".'y'", "bool", "true"⟩] [] rfl rfl rfl]
      simp only [plistString_singleton, plistString_nil]
      rfl,
    fun _ => rfl, fun _ => rfl⟩

end Prefwatch
